import Mathlib

set_option maxHeartbeats 1000000

/-
Verification of the tau interpreter fragment.

Embedded source files:
  * src/ast/times.go      — the Times and Less AST nodes, their Eval and String methods.
  * src/parser/parser.go  — the Pratt parser (second half of this file).

The obj package (runtime values) and the item package (token kinds) are not
part of src/; where their behavior is needed it is modelled from the spec and
marked as such in the doc comments.
-/

/-- Modelled from the spec: the runtime kind discriminator of the obj package
(absent from src/), `obj.Type`.  The kinds cover the value variants of the
spec's data model that code in src/ can touch; function/closure and
return-wrapper values are omitted since no code in src/ constructs or
inspects them. -/
inductive ObjType where
  | INT
  | FLOAT
  | BOOL
  | STRING
  | NULL
  | LIST
  | ERROR
  deriving DecidableEq, Repr

/-- Modelled from the spec: the textual rendering of a runtime kind, used by
the `%v` verbs in the error-message formats of times.go. -/
def ObjType.str : ObjType → String
  | .INT => "int"
  | .FLOAT => "float"
  | .BOOL => "bool"
  | .STRING => "string"
  | .NULL => "null"
  | .LIST => "list"
  | .ERROR => "error"

/-- Modelled from the spec: the tagged runtime value sum of the obj package
(`obj.Object`).  Go float64 payloads are modelled as exact rationals: the
claims under verification concern kind dispatch and which operation is
applied, not IEEE-754 rounding. -/
inductive Obj where
  | integer (i : Int)
  | float (q : Rat)
  | boolean (b : Bool)
  | string (s : String)
  | null
  | list (elems : List Obj)
  | error (msg : String)

/-- The kind discriminator (`Object.Type()` of the obj package). -/
def Obj.type : Obj → ObjType
  | .integer _ => .INT
  | .float _ => .FLOAT
  | .boolean _ => .BOOL
  | .string _ => .STRING
  | .null => .NULL
  | .list _ => .LIST
  | .error _ => .ERROR

/-- Modelled from the spec: decimal rendering of a float value.  The exact
digits Go produces for a float64 are abstracted; the value is printed as
numerator/denominator of the exact rational. -/
def ratStr (q : Rat) : String :=
  toString q.num ++ "/" ++ toString q.den

mutual

/-- Modelled from the spec: the textual rendering of a runtime value, used by
the `%v` verbs in the error-message formats of times.go. -/
def Obj.render : Obj → String
  | .integer i => toString i
  | .float q => ratStr q
  | .boolean b => if b then "true" else "false"
  | .string s => s
  | .null => "null"
  | .list l => "[" ++ renderElems l ++ "]"
  | .error m => m

/-- Comma-separated rendering of list elements. -/
def renderElems : List Obj → String
  | [] => ""
  | [x] => x.render
  | x :: y :: rest => x.render ++ ", " ++ renderElems (y :: rest)

end

/-- Two's-complement wrap of an integer into the signed 64-bit range,
the behavior of Go's int64 arithmetic on overflow. -/
def wrap64 (n : Int) : Int :=
  (n + 2 ^ 63) % 2 ^ 64 - 2 ^ 63

/-- Go int64 multiplication: `l.Val() * r.Val()` in times.go line 39. -/
def int64Mul (a b : Int) : Int :=
  wrap64 (a * b)

/-- Modelled from the spec: `ast.isError`, true exactly on Error values
(errors are the values that short-circuit compound evaluation). -/
def isError (o : Obj) : Bool :=
  o.type == ObjType.ERROR

/-- Modelled from the spec: `obj.ParseBool` wraps a host boolean as the
language's Boolean value (times.go lines 92 and 97 use it for `<`). -/
def ParseBool (b : Bool) : Obj :=
  Obj.boolean b

/-- Modelled from the spec: the environment maps identifier names to values.
No node in src/ reads or writes it; Times.Eval and Less.Eval only pass it to
their children. -/
abbrev Env := List (String × Obj)

/-- The AST fragment present in src/ast: the compound nodes Times and Less.
All other node variants of the repository are abstracted by `lit`, a leaf
standing for any node whose Eval yields the stored object. -/
inductive ENode where
  | lit (o : Obj)
  | times (l r : ENode)
  | less (l r : ENode)

/-- `Times.Eval` and `Less.Eval` from src/ast/times.go (lines 17–49 and
70–102).  Both methods first call Eval on both operands, then return the left
error if any, then the right error, then the mismatched-types error, and
finally dispatch on the (equal) kinds; the match arms on constructor pairs
are reachable only under the preceding type-equality guard, mirroring the Go
switch on `left.Type()` with its type assertions on `right`. -/
def ENode.eval (env : Env) : ENode → Obj
  | .lit o => o
  | .times a b =>
    let left := a.eval env
    let right := b.eval env
    if isError left then left
    else if isError right then right
    else if left.type ≠ right.type then
      Obj.error ("invalid operation " ++ left.render ++ " * " ++ right.render ++
        " (mismatched types " ++ left.type.str ++ " and " ++ right.type.str ++ ")")
    else
      match left, right with
      | Obj.integer l, Obj.integer r => Obj.integer (int64Mul l r)
      | Obj.float l, Obj.float r => Obj.float (l * r)
      | _, _ =>
        Obj.error ("unsupported operator \x27*\x27 for type " ++ left.type.str)
  | .less a b =>
    let left := a.eval env
    let right := b.eval env
    if isError left then left
    else if isError right then right
    else if left.type ≠ right.type then
      Obj.error ("invalid operation " ++ left.render ++ " < " ++ right.render ++
        " (mismatched types " ++ left.type.str ++ " and " ++ right.type.str ++ ")")
    else
      match left, right with
      | Obj.integer l, Obj.integer r => ParseBool (decide (l < r))
      | Obj.float l, Obj.float r => ParseBool (decide (l < r))
      | _, _ =>
        Obj.error ("unsupported operator \x27<\x27 for type " ++ left.type.str)

/-- The number of Eval invocations a call of `eval` performs, following the
Go control flow exactly: Times.Eval (lines 18–19) and Less.Eval (lines 71–72)
always invoke Eval on both operands before any error check, so every
invocation on a compound node costs one plus the full cost of both subtrees. -/
def ENode.evalCalls : ENode → Nat
  | .lit _ => 1
  | .times a b => 1 + a.evalCalls + b.evalCalls
  | .less a b => 1 + a.evalCalls + b.evalCalls

/-- All subexpressions of a node, itself included, in left-to-right order. -/
def ENode.subs : ENode → List ENode
  | .lit o => [.lit o]
  | .times a b => .times a b :: (a.subs ++ b.subs)
  | .less a b => .less a b :: (a.subs ++ b.subs)

/-- `String()` of the nodes in src/ast/times.go: `fmt.Sprintf("(%v * %v)", …)`
and `fmt.Sprintf("(%v < %v)", …)`. -/
def ENode.render : ENode → String
  | .lit o => o.render
  | .times a b => "(" ++ a.render ++ " * " ++ b.render ++ ")"
  | .less a b => "(" ++ a.render ++ " < " ++ b.render ++ ")"


/-
Parser embedding: src/parser/parser.go.

The item package (token kinds) is not in src/; the kind enumeration and its
textual rendering are modelled from the spec (token kinds of spec section 6,
rendering fixed by the error messages the spec quotes).
-/

/-- Modelled from the spec: the token kinds (`item.Type`) the parser
recognizes — literals, keywords, punctuation, the operators of the precedence
ladder, and the EOF sentinel. -/
inductive ItemType where
  | IDENT
  | INT
  | FLOAT
  | STRING
  | MINUS
  | BANG
  | TRUE
  | FALSE
  | LPAREN
  | RPAREN
  | LBRACE
  | RBRACE
  | LBRACKET
  | RBRACKET
  | COMMA
  | SEMICOLON
  | IF
  | ELSE
  | RETURN
  | FUNCTION
  | EQ
  | NOT_EQ
  | LT
  | GT
  | LT_EQ
  | GT_EQ
  | AND
  | OR
  | PLUS
  | SLASH
  | ASTERISK
  | POWER
  | ASSIGN
  | PLUS_ASSIGN
  | MINUS_ASSIGN
  | SLASH_ASSIGN
  | ASTERISK_ASSIGN
  | EOF
  deriving DecidableEq, Repr

/-- Modelled from the spec: the textual rendering of a token kind, used by
the parser's error messages.  Operators render as their lexemes; the spec's
quoted error for `a ** b` ("no parse prefix function for '*'") fixes the
rendering of POWER as "*". -/
def ItemType.str : ItemType → String
  | .IDENT => "IDENT"
  | .INT => "INT"
  | .FLOAT => "FLOAT"
  | .STRING => "STRING"
  | .MINUS => "-"
  | .BANG => "!"
  | .TRUE => "true"
  | .FALSE => "false"
  | .LPAREN => "("
  | .RPAREN => ")"
  | .LBRACE => "\x7b"
  | .RBRACE => "\x7d"
  | .LBRACKET => "["
  | .RBRACKET => "]"
  | .COMMA => ","
  | .SEMICOLON => ";"
  | .IF => "if"
  | .ELSE => "else"
  | .RETURN => "return"
  | .FUNCTION => "fn"
  | .EQ => "=="
  | .NOT_EQ => "!="
  | .LT => "<"
  | .GT => ">"
  | .LT_EQ => "<="
  | .GT_EQ => ">="
  | .AND => "&&"
  | .OR => "||"
  | .PLUS => "+"
  | .SLASH => "/"
  | .ASTERISK => "*"
  | .POWER => "*"
  | .ASSIGN => "="
  | .PLUS_ASSIGN => "+="
  | .MINUS_ASSIGN => "-="
  | .SLASH_ASSIGN => "/="
  | .ASTERISK_ASSIGN => "*="
  | .EOF => "EOF"

/-- A token: kind plus raw lexeme (`item.Item`). -/
structure Item where
  typ : ItemType
  val : String
  deriving DecidableEq, Repr

/-- `item.Item.Is`: kind test. -/
def Item.Is (i : Item) (t : ItemType) : Bool :=
  i.typ == t

/-- The EOF sentinel token. -/
def eofItem : Item :=
  { typ := ItemType.EOF, val := "" }

/- Operator precedence classes, parser.go lines 27–37.  UNARY is the
source's class for unary operators (its source name is the word between
SLASH and CALL on the ladder, which cannot appear as an identifier here). -/

def LOWEST : Nat := 0
def ASSIGNMENT : Nat := 1
def EQUALS : Nat := 2
def LESSGREATER : Nat := 3
def SUM : Nat := 4
def PRODUCT : Nat := 5
def UNARY : Nat := 6
def CALL : Nat := 7
def INDEX : Nat := 8

/-- The precedence table, parser.go lines 40–61: `none` models absence of a
key from the Go map. -/
def precedences : ItemType → Option Nat
  | .EQ => some EQUALS
  | .NOT_EQ => some EQUALS
  | .LT => some LESSGREATER
  | .GT => some LESSGREATER
  | .LT_EQ => some LESSGREATER
  | .GT_EQ => some LESSGREATER
  | .PLUS => some SUM
  | .MINUS => some SUM
  | .OR => some SUM
  | .SLASH => some PRODUCT
  | .ASTERISK => some PRODUCT
  | .POWER => some PRODUCT
  | .AND => some PRODUCT
  | .LPAREN => some CALL
  | .LBRACKET => some INDEX
  | .ASSIGN => some ASSIGNMENT
  | .PLUS_ASSIGN => some ASSIGNMENT
  | .MINUS_ASSIGN => some ASSIGNMENT
  | .SLASH_ASSIGN => some ASSIGNMENT
  | .ASTERISK_ASSIGN => some ASSIGNMENT
  | _ => none

/-- The AST produced by the parser.  Beyond Times and Less (src/ast/times.go)
the node variants and their fields are modelled from the spec's data-model
table.  A Go interface-typed child that may be nil is an `Option`; Go slices
(params, args, elements) are plain lists, since a nil slice and an empty
slice are indistinguishable to all code in src/. -/
inductive PNode where
  | integer (i : Int)
  | float (q : Rat)
  | string (s : String)
  | boolean (b : Bool)
  | identifier (name : String)
  | unaryMinus (x : Option PNode)
  | bang (x : Option PNode)
  | plus (l r : Option PNode)
  | minus (l r : Option PNode)
  | times (l r : Option PNode)
  | divide (l r : Option PNode)
  | equals (l r : Option PNode)
  | notEquals (l r : Option PNode)
  | less (l r : Option PNode)
  | greater (l r : Option PNode)
  | lessEq (l r : Option PNode)
  | greaterEq (l r : Option PNode)
  | and (l r : Option PNode)
  | or (l r : Option PNode)
  | assign (l r : Option PNode)
  | plusAssign (l r : Option PNode)
  | minusAssign (l r : Option PNode)
  | divideAssign (l r : Option PNode)
  | timesAssign (l r : Option PNode)
  | ifExpr (cond : Option PNode) (body : PNode) (alt : Option PNode)
  | function (params : List String) (body : PNode)
  | call (fn : Option PNode) (args : List (Option PNode))
  | list (elems : List (Option PNode))
  | index (target : Option PNode) (idx : Option PNode)
  | ret (x : Option PNode)
  | block (stmts : List PNode)

/-- The binary-operator infix parsers, parser.go lines 309–411: seventeen
functions of identical shape, `prec := p.precedence(); p.next();
NewX(left, p.parseExpr(prec))`, differing only in the node constructor. -/
inductive BinOp where
  | eq
  | neq
  | lt
  | gt
  | le
  | ge
  | land
  | lor
  | add
  | sub
  | div
  | mul
  | assignOp
  | addAssign
  | subAssign
  | divAssign
  | mulAssign
  deriving DecidableEq, Repr

/-- The node constructor a binary-operator infix parser applies. -/
def mkBin : BinOp → Option PNode → Option PNode → PNode
  | .eq, l, r => .equals l r
  | .neq, l, r => .notEquals l r
  | .lt, l, r => .less l r
  | .gt, l, r => .greater l r
  | .le, l, r => .lessEq l r
  | .ge, l, r => .greaterEq l r
  | .land, l, r => .and l r
  | .lor, l, r => .or l r
  | .add, l, r => .plus l r
  | .sub, l, r => .minus l r
  | .div, l, r => .divide l r
  | .mul, l, r => .times l r
  | .assignOp, l, r => .assign l r
  | .addAssign, l, r => .plusAssign l r
  | .subAssign, l, r => .minusAssign l r
  | .divAssign, l, r => .divideAssign l r
  | .mulAssign, l, r => .timesAssign l r

/-- Tags for the registered prefix parse functions (parser.go lines 71–82). -/
inductive PreKind where
  | identK
  | intK
  | floatK
  | stringK
  | minusK
  | bangK
  | boolK
  | groupK
  | ifK
  | fnK
  | listK
  deriving DecidableEq, Repr

/-- Tags for the registered infix parse functions (parser.go lines 84–104). -/
inductive InfKind where
  | op (b : BinOp)
  | callK
  | indexK
  deriving DecidableEq, Repr

/-- The prefix dispatch table built by newParser, parser.go lines 71–82. -/
def preTable : ItemType → Option PreKind
  | .IDENT => some .identK
  | .INT => some .intK
  | .FLOAT => some .floatK
  | .STRING => some .stringK
  | .MINUS => some .minusK
  | .BANG => some .bangK
  | .TRUE => some .boolK
  | .FALSE => some .boolK
  | .LPAREN => some .groupK
  | .IF => some .ifK
  | .FUNCTION => some .fnK
  | .LBRACKET => some .listK
  | _ => none

/-- The infix dispatch table built by newParser, parser.go lines 84–104.
POWER has no entry: its registration is commented out at line 96. -/
def infTable : ItemType → Option InfKind
  | .EQ => some (.op .eq)
  | .NOT_EQ => some (.op .neq)
  | .LT => some (.op .lt)
  | .GT => some (.op .gt)
  | .LT_EQ => some (.op .le)
  | .GT_EQ => some (.op .ge)
  | .AND => some (.op .land)
  | .OR => some (.op .lor)
  | .PLUS => some (.op .add)
  | .MINUS => some (.op .sub)
  | .SLASH => some (.op .div)
  | .ASTERISK => some (.op .mul)
  | .ASSIGN => some (.op .assignOp)
  | .PLUS_ASSIGN => some (.op .addAssign)
  | .MINUS_ASSIGN => some (.op .subAssign)
  | .SLASH_ASSIGN => some (.op .divAssign)
  | .ASTERISK_ASSIGN => some (.op .mulAssign)
  | .LPAREN => some .callK
  | .LBRACKET => some .indexK
  | _ => none

/-- The parser state, parser.go lines 12–19: current and peek tokens, the
remaining token stream, and the accumulated error strings.  The dispatch
tables are the fixed functions above. -/
structure Parser where
  cur : Item
  peek : Item
  items : List Item
  errs : List String

/-- Receiving from the token channel.  Modelled from the spec's token-stream
contract: the stream is finite and EOF-terminated, and after EOF no further
tokens are produced, so an exhausted stream yields the EOF sentinel. -/
def recv : List Item → Item × List Item
  | [] => (eofItem, [])
  | i :: rest => (i, rest)

/-- `newParser`, parser.go lines 63–70: pulls the first two tokens. -/
def newParser (toks : List Item) : Parser :=
  let r1 := recv toks
  let r2 := recv r1.2
  { cur := r1.1, peek := r2.1, items := r2.2, errs := [] }

/-- `Parser.next`, parser.go lines 108–111. -/
def Parser.next (p : Parser) : Parser :=
  let r := recv p.items
  { p with cur := p.peek, peek := r.1, items := r.2 }

/-- Appending an error string (`p.errs = append(p.errs, msg)`). -/
def addErr (p : Parser) (m : String) : Parser :=
  { p with errs := p.errs ++ [m] }

/-- `peekError`, parser.go lines 462–467. -/
def peekError (p : Parser) (t : ItemType) : Parser :=
  addErr p ("expected next item to be " ++ t.str ++ ", got " ++
    p.peek.typ.str ++ " instead")

/-- `expectPeek`, parser.go lines 452–459: advance on match, record an error
otherwise. -/
def expectPeek (p : Parser) (t : ItemType) : Bool × Parser :=
  if p.peek.Is t then (true, p.next) else (false, peekError p t)

/-- `noParsePrefixFnError`, parser.go lines 495–498. -/
def noPreFnError (p : Parser) (t : ItemType) : Parser :=
  addErr p ("no parse prefix function for \x27" ++ t.str ++ "\x27 found")

/-- `peekPrecedence`, parser.go lines 470–475: table lookup defaulting to
LOWEST. -/
def peekPrec (p : Parser) : Nat :=
  (precedences p.peek.typ).getD LOWEST

/-- `precedence`, parser.go lines 478–483. -/
def curPrec (p : Parser) : Nat :=
  (precedences p.cur.typ).getD LOWEST

/-- Fuel exhaustion: the Go parser's loops terminate because the token
stream is finite; the fuel argument is this embedding's termination device.
Running out of fuel records an error so that a fuel-starved run is never
mistaken for a clean parse. -/
def fuelErr (p : Parser) : Parser :=
  addErr p "parser: fuel exhausted"

/-- Go's strconv.ParseInt is external to the repository.  Modelled from the
spec: an integer literal is a nonempty digit string; anything else fails. -/
def natDigits (acc : Nat) : List Char → Option Nat
  | [] => some acc
  | c :: cs => if c.isDigit then natDigits (acc * 10 + (c.toNat - 48)) cs else none

/-- Integer-literal parsing (stand-in for strconv.ParseInt). -/
def parseIntLit (s : String) : Option Int :=
  match s.data with
  | [] => none
  | cs => (natDigits 0 cs).map Int.ofNat

/-- Float-literal parsing (stand-in for strconv.ParseFloat): digits,
optionally followed by a dot and more digits. -/
def parseFloatLit (s : String) : Option Rat :=
  match s.data.span (fun c => c ≠ '.') with
  | (intPart, rest) =>
    match intPart, rest with
    | [], _ => none
    | cs, [] => (natDigits 0 cs).map (fun n => (n : Rat))
    | cs, _ :: frac =>
      match natDigits 0 cs, frac, natDigits 0 frac with
      | some a, _ :: _, some b => some ((a : Rat) + (b : Rat) / (10 : Rat) ^ frac.length)
      | _, _, _ => none

/-- `parseInteger`, parser.go lines 267–275. -/
def parseInteger (p : Parser) : Option PNode × Parser :=
  match parseIntLit p.cur.val with
  | some i => (some (.integer i), p)
  | none => (none, addErr p ("unable to parse \"" ++ p.cur.val ++ "\" as integer"))

/-- `parseFloat`, parser.go lines 278–286. -/
def parseFloat (p : Parser) : Option PNode × Parser :=
  match parseFloatLit p.cur.val with
  | some q => (some (.float q), p)
  | none => (none, addErr p ("unable to parse \"" ++ p.cur.val ++ "\" as float"))

mutual

/-- `parseExpr`, parser.go lines 146–166: look up the prefix function for the
current token (recording an error and yielding nil if absent), run it, run
the infix loop, and consume a trailing semicolon if present. -/
def parseExpr : Nat → Parser → Nat → Option PNode × Parser
  | 0, p, _ => (none, fuelErr p)
  | f + 1, p, prec =>
    match preTable p.cur.typ with
    | some k =>
      let r1 := runPre f k p
      let r2 := infLoop f r1.2 prec r1.1
      let p3 := if r2.2.peek.Is .SEMICOLON then r2.2.next else r2.2
      (r2.1, p3)
    | none => (none, noPreFnError p p.cur.typ)

/-- The infix loop of parseExpr, parser.go lines 150–157: while the peek is
not a semicolon and the minimum precedence is strictly below the peek's
precedence, advance and apply the registered infix function (breaking if
none is registered). -/
def infLoop : Nat → Parser → Nat → Option PNode → Option PNode × Parser
  | 0, p, _, left => (left, p)
  | f + 1, p, prec, left =>
    if p.peek.Is .SEMICOLON = false ∧ prec < peekPrec p then
      match infTable p.peek.typ with
      | some k =>
        let p1 := p.next
        let r := runInf f k p1 left
        infLoop f r.2 prec r.1
      | none => (left, p)
    else (left, p)

/-- Dispatch on a prefix table entry.  Inlined here are the leaf parsers of
parser.go: parseIdentifier (line 262), parseString (288), parseBoolean (293),
parsePrefixMinus (298) and parseBang (304) — the latter two advance and parse
their operand with the unary precedence class. -/
def runPre : Nat → PreKind → Parser → Option PNode × Parser
  | 0, _, p => (none, fuelErr p)
  | f + 1, k, p =>
    match k with
    | .identK => (some (.identifier p.cur.val), p)
    | .intK => parseInteger p
    | .floatK => parseFloat p
    | .stringK => (some (.string p.cur.val), p)
    | .boolK => (some (.boolean (p.cur.Is .TRUE)), p)
    | .minusK =>
      let p1 := p.next
      let r := parseExpr f p1 UNARY
      (some (.unaryMinus r.1), r.2)
    | .bangK =>
      let p1 := p.next
      let r := parseExpr f p1 UNARY
      (some (.bang r.1), r.2)
    | .groupK => parseGroupedExpr f p
    | .ifK => parseIfExpr f p
    | .fnK => parseFunction f p
    | .listK => parseListLit f p

/-- Dispatch on an infix table entry. -/
def runInf : Nat → InfKind → Parser → Option PNode → Option PNode × Parser
  | 0, _, p, _ => (none, fuelErr p)
  | f + 1, k, p, left =>
    match k with
    | .op b => parseInfOp f b p left
    | .callK => parseCall f p left
    | .indexK => parseIndex f p left

/-- The common shape of the seventeen binary-operator infix parsers
(parser.go lines 309–411): read the current token's precedence, advance,
parse the right operand with that same precedence, build the node. -/
def parseInfOp : Nat → BinOp → Parser → Option PNode → Option PNode × Parser
  | 0, _, p, _ => (none, fuelErr p)
  | f + 1, b, p, left =>
    let prec := curPrec p
    let p1 := p.next
    let r := parseExpr f p1 prec
    (some (mkBin b left r.1), r.2)

/-- `parseGroupedExpr`, parser.go lines 169–176. -/
def parseGroupedExpr : Nat → Parser → Option PNode × Parser
  | 0, p => (none, fuelErr p)
  | f + 1, p =>
    let p1 := p.next
    let r := parseExpr f p1 LOWEST
    let e := expectPeek r.2 .RPAREN
    if e.1 then (r.1, e.2) else (none, e.2)

/-- `parseIfExpr`, parser.go lines 191–217. -/
def parseIfExpr : Nat → Parser → Option PNode × Parser
  | 0, p => (none, fuelErr p)
  | f + 1, p =>
    let p1 := p.next
    let rc := parseExpr f p1 LOWEST
    let e1 := expectPeek rc.2 .LBRACE
    if e1.1 then
      let rb := parseBlock f e1.2
      if rb.2.peek.Is .ELSE then
        let p2 := rb.2.next
        if p2.peek.Is .IF then
          let p3 := p2.next
          let ra := parseIfExpr f p3
          (some (.ifExpr rc.1 rb.1 ra.1), ra.2)
        else
          let e2 := expectPeek p2 .LBRACE
          if e2.1 then
            let rb2 := parseBlock f e2.2
            (some (.ifExpr rc.1 rb.1 (some rb2.1)), rb2.2)
          else (none, e2.2)
      else (some (.ifExpr rc.1 rb.1 none), rb.2)
    else (none, e1.2)

/-- `parseBlock`, parser.go lines 178–189: advance past the brace, then
collect statements until a closing brace or EOF. -/
def parseBlock : Nat → Parser → PNode × Parser
  | 0, p => (.block [], fuelErr p)
  | f + 1, p =>
    let r := blockLoop f p.next []
    (.block r.1, r.2)

/-- The statement loop of parseBlock, appending each non-nil statement. -/
def blockLoop : Nat → Parser → List PNode → List PNode × Parser
  | 0, p, acc => (acc, p)
  | f + 1, p, acc =>
    if p.cur.Is .RBRACE = false ∧ p.cur.Is .EOF = false then
      let r := parseStatement f p
      let acc2 := match r.1 with
        | some n => acc ++ [n]
        | none => acc
      blockLoop f r.2.next acc2
    else (acc, p)

/-- `parseFunction`, parser.go lines 224–236. -/
def parseFunction : Nat → Parser → Option PNode × Parser
  | 0, p => (none, fuelErr p)
  | f + 1, p =>
    let e1 := expectPeek p .LPAREN
    if e1.1 then
      let rp := parseFunctionParams f e1.2
      let e2 := expectPeek rp.2 .LBRACE
      if e2.1 then
        let rb := parseBlock f e2.2
        (some (.function rp.1 rb.1), rb.2)
      else (none, e2.2)
    else (none, e1.2)

/-- `parseFunctionParams`, parser.go lines 238–259.  On a failed closing
expectPeek the Go code returns a nil slice (indistinguishable from the empty
one) after the error has been recorded. -/
def parseFunctionParams : Nat → Parser → List String × Parser
  | 0, p => ([], fuelErr p)
  | f + 1, p =>
    if p.peek.Is .RPAREN then ([], p.next)
    else
      let p1 := p.next
      let r := paramsLoop f p1 [p1.cur.val]
      let e := expectPeek r.2 .RPAREN
      if e.1 then (r.1, e.2) else ([], e.2)

/-- The comma loop of parseFunctionParams (lines 249–253). -/
def paramsLoop : Nat → Parser → List String → List String × Parser
  | 0, p, acc => (acc, p)
  | f + 1, p, acc =>
    if p.peek.Is .COMMA then
      let p1 := p.next.next
      paramsLoop f p1 (acc ++ [p1.cur.val])
    else (acc, p)

/-- `parseList`, parser.go lines 219–222: always builds a List node from the
collected elements. -/
def parseListLit : Nat → Parser → Option PNode × Parser
  | 0, p => (none, fuelErr p)
  | f + 1, p =>
    let r := parseNodeList f p .RBRACKET
    (some (.list r.1), r.2)

/-- `parseCall`, parser.go lines 413–415. -/
def parseCall : Nat → Parser → Option PNode → Option PNode × Parser
  | 0, p, _ => (none, fuelErr p)
  | f + 1, p, left =>
    let r := parseNodeList f p .RPAREN
    (some (.call left r.1), r.2)

/-- `parseIndex`, parser.go lines 417–424. -/
def parseIndex : Nat → Parser → Option PNode → Option PNode × Parser
  | 0, p, _ => (none, fuelErr p)
  | f + 1, p, left =>
    let p1 := p.next
    let r := parseExpr f p1 LOWEST
    let e := expectPeek r.2 .RBRACKET
    if e.1 then (some (.index left r.1), e.2) else (none, e.2)

/-- `parseNodeList`, parser.go lines 426–448.  On a failed closing expectPeek
the Go code returns a nil slice (indistinguishable from the empty one) after
the error has been recorded. -/
def parseNodeList : Nat → Parser → ItemType → List (Option PNode) × Parser
  | 0, p, _ => ([], fuelErr p)
  | f + 1, p, endT =>
    if p.peek.Is endT then ([], p.next)
    else
      let p1 := p.next
      let r0 := parseExpr f p1 LOWEST
      let r := nodeListLoop f r0.2 endT [r0.1]
      let e := expectPeek r.2 endT
      if e.1 then (r.1, e.2) else ([], e.2)

/-- The comma loop of parseNodeList (lines 437–441). -/
def nodeListLoop : Nat → Parser → ItemType → List (Option PNode) →
    List (Option PNode) × Parser
  | 0, p, _, acc => (acc, p)
  | f + 1, p, endT, acc =>
    if p.peek.Is .COMMA then
      let p1 := p.next.next
      let r := parseExpr f p1 LOWEST
      nodeListLoop f r.2 endT (acc ++ [r.1])
    else (acc, p)

/-- `parseReturn`, parser.go lines 136–144. -/
def parseReturn : Nat → Parser → PNode × Parser
  | 0, p => (.ret none, fuelErr p)
  | f + 1, p =>
    let p1 := p.next
    let r := parseExpr f p1 LOWEST
    let p2 := if r.2.peek.Is .SEMICOLON then r.2.next else r.2
    (.ret r.1, p2)

/-- `parseStatement`, parser.go lines 129–134. -/
def parseStatement : Nat → Parser → Option PNode × Parser
  | 0, p => (none, fuelErr p)
  | f + 1, p =>
    if p.cur.Is .RETURN then
      let r := parseReturn f p
      (some r.1, r.2)
    else parseExpr f p LOWEST

/-- The main loop of `parse`, parser.go lines 120–125: until EOF, parse a
statement, append it to the block if non-nil, advance. -/
def parseLoopAcc : Nat → Parser → List PNode → List PNode × Parser
  | 0, p, acc => (acc, p)
  | f + 1, p, acc =>
    if p.cur.Is .EOF = false then
      let r := parseStatement f p
      let acc2 := match r.1 with
        | some n => acc ++ [n]
        | none => acc
      parseLoopAcc f r.2.next acc2
    else (acc, p)

end

/-- `parse`, parser.go lines 117–127: the root Block. -/
def parse (fuel : Nat) (p : Parser) : PNode × Parser :=
  let r := parseLoopAcc fuel p []
  (.block r.1, r.2)

/-- `Parse`, parser.go lines 500–504: build the parser on the token stream,
parse, and return the root node together with the accumulated errors. -/
def Parse (fuel : Nat) (toks : List Item) : PNode × List String :=
  let p := newParser toks
  let r := parse fuel p
  (r.1, r.2.errs)

/-- A concrete parser state whose peek token kind (RPAREN) has no precedence
entry; used as the C10 witness input. -/
def rparenState : Parser :=
  { cur := ⟨.IDENT, "a"⟩, peek := ⟨.RPAREN, ""⟩, items := [], errs := [] }

mutual

/-- Decides whether every required child slot of a parsed node is populated.
Interface-typed children (Options) must be present, recursively; the
else-branch of an If is the one optional slot (the spec's data-model table
marks it optional, and parseIfExpr legitimately leaves it nil when there is
no else clause). -/
def PNode.full : PNode → Bool
  | .integer _ => true
  | .float _ => true
  | .string _ => true
  | .boolean _ => true
  | .identifier _ => true
  | .unaryMinus x => oFull x
  | .bang x => oFull x
  | .plus l r => oFull l && oFull r
  | .minus l r => oFull l && oFull r
  | .times l r => oFull l && oFull r
  | .divide l r => oFull l && oFull r
  | .equals l r => oFull l && oFull r
  | .notEquals l r => oFull l && oFull r
  | .less l r => oFull l && oFull r
  | .greater l r => oFull l && oFull r
  | .lessEq l r => oFull l && oFull r
  | .greaterEq l r => oFull l && oFull r
  | .and l r => oFull l && oFull r
  | .or l r => oFull l && oFull r
  | .assign l r => oFull l && oFull r
  | .plusAssign l r => oFull l && oFull r
  | .minusAssign l r => oFull l && oFull r
  | .divideAssign l r => oFull l && oFull r
  | .timesAssign l r => oFull l && oFull r
  | .ifExpr c b a => oFull c && b.full && altFull a
  | .function _ b => b.full
  | .call f as => oFull f && loFull as
  | .list es => loFull es
  | .index t i => oFull t && oFull i
  | .ret x => oFull x
  | .block ss => lFull ss

/-- A required child slot: present and itself full. -/
def oFull : Option PNode → Bool
  | none => false
  | some n => n.full

/-- The optional else slot: absent or full. -/
def altFull : Option PNode → Bool
  | none => true
  | some n => n.full

/-- All statements of a block full. -/
def lFull : List PNode → Bool
  | [] => true
  | n :: ns => n.full && lFull ns

/-- All slots of an argument or element list present and full. -/
def loFull : List (Option PNode) → Bool
  | [] => true
  | o :: os => oFull o && loFull os

end

/-- The error list only grows: the second state's errors extend the first's. -/
def errsLe (p q : Parser) : Prop :=
  ∃ d, q.errs = p.errs ++ d

/-- A good expression result: a node is returned and it is full. -/
def okN (o : Option PNode) : Prop :=
  ∃ n, o = some n ∧ n.full = true

/-- C1: Times.Eval on error-free operands of the same kind: two Integers
yield the Integer product (Go int64 multiplication, which wraps on overflow),
two Floats yield the Float product, and operands of any other common kind
yield the unsupported-operator error naming that kind. -/
theorem times_same_kind (a b : ENode) (env : Env) :
    (∀ l r, a.eval env = Obj.integer l → b.eval env = Obj.integer r →
      (ENode.times a b).eval env = Obj.integer (int64Mul l r)) ∧
    (∀ x y, a.eval env = Obj.float x → b.eval env = Obj.float y →
      (ENode.times a b).eval env = Obj.float (x * y)) ∧
    (∀ va vb, a.eval env = va → b.eval env = vb → va.type = vb.type →
      isError va = false → va.type ≠ ObjType.INT → va.type ≠ ObjType.FLOAT →
      (ENode.times a b).eval env =
        Obj.error ("unsupported operator \x27*\x27 for type " ++ va.type.str)) := by
  refine ⟨?_, ?_, ?_⟩
  · intro l r ha hb
    simp [ENode.eval, ha, hb, isError, Obj.type]
  · intro x y ha hb
    simp [ENode.eval, ha, hb, isError, Obj.type]
  · intro va vb ha hb hty hne hint hfloat
    subst ha; subst hb
    cases hva : a.eval env <;> cases hvb : b.eval env <;>
      simp_all [ENode.eval, isError, Obj.type, ObjType.str]

/-- Witness for C1 at concrete inputs: 6 * 7 on Integers, and the
unsupported-operator error on two Booleans. -/
theorem times_same_kind_wit :
    (ENode.times (.lit (Obj.integer 6)) (.lit (Obj.integer 7))).eval [] =
      Obj.integer 42 ∧
    (ENode.times (.lit (Obj.boolean true)) (.lit (Obj.boolean false))).eval [] =
      Obj.error "unsupported operator \x27*\x27 for type bool" := by
  constructor
  · have h :=
      (times_same_kind (.lit (Obj.integer 6)) (.lit (Obj.integer 7)) []).1
        6 7 rfl rfl
    have hm : int64Mul 6 7 = 42 := by decide
    rw [h, hm]
  · have h :=
      (times_same_kind (.lit (Obj.boolean true)) (.lit (Obj.boolean false)) []).2.2
        (Obj.boolean true) (Obj.boolean false) rfl rfl rfl rfl
        (by decide) (by decide)
    simpa [Obj.type, ObjType.str] using h

/-- C2 (amended): error values propagate left-to-right through Times and
Less — a left-operand error is returned (taking priority over everything
else), a right-operand error is returned whenever the left operand is not an
error, and any subexpression evaluating to an error forces the whole
expression to evaluate to an error; however both operands are always
evaluated (each Eval call performs one plus the Eval calls of both subtrees,
per the unconditional recursive calls at times.go lines 18–19 and 71–72),
so the error check happens only after both recursive calls, not immediately
after each one. -/
theorem error_propagation (a b : ENode) (env : Env) (m : String) :
    (a.eval env = Obj.error m →
      (ENode.times a b).eval env = Obj.error m ∧
      (ENode.less a b).eval env = Obj.error m) ∧
    (isError (a.eval env) = false → b.eval env = Obj.error m →
      (ENode.times a b).eval env = Obj.error m ∧
      (ENode.less a b).eval env = Obj.error m) ∧
    ((ENode.times a b).evalCalls = 1 + a.evalCalls + b.evalCalls ∧
      (ENode.less a b).evalCalls = 1 + a.evalCalls + b.evalCalls) ∧
    (∀ n s : ENode, s ∈ n.subs → isError (s.eval env) = true →
      isError (n.eval env) = true) := by
  refine ⟨?_, ?_, ⟨rfl, rfl⟩, ?_⟩
  · intro ha
    constructor <;> simp [ENode.eval, ha, isError, Obj.type]
  · intro ha hb
    cases hva : a.eval env <;>
      constructor <;> simp_all [ENode.eval, isError, Obj.type]
  · intro n
    induction n with
    | lit o =>
      intro s hs herr
      simp [ENode.subs] at hs
      subst hs
      exact herr
    | times x y ihx ihy =>
      intro s hs herr
      simp [ENode.subs] at hs
      rcases hs with hs | hs | hs
      · subst hs; exact herr
      · have hx := ihx s hs herr
        simp [ENode.eval, hx]
      · have hy := ihy s hs herr
        by_cases hx : isError (x.eval env) = true
        · simp [ENode.eval, hx]
        · simp at hx
          simp [ENode.eval, hx, hy]
    | less x y ihx ihy =>
      intro s hs herr
      simp [ENode.subs] at hs
      rcases hs with hs | hs | hs
      · subst hs; exact herr
      · have hx := ihx s hs herr
        simp [ENode.eval, hx]
      · have hy := ihy s hs herr
        by_cases hx : isError (x.eval env) = true
        · simp [ENode.eval, hx]
        · simp at hx
          simp [ENode.eval, hx, hy]

/-- Witness for C2 (amended) at concrete inputs: a left-operand error
surfaces from Times, and an erring subexpression makes Less err. -/
theorem error_propagation_wit :
    (ENode.times (.lit (Obj.error "boom")) (.lit (Obj.integer 1))).eval [] =
      Obj.error "boom" ∧
    isError ((ENode.less (.lit (Obj.integer 1))
      (.lit (Obj.error "boom"))).eval []) = true := by
  constructor
  · exact ((error_propagation (.lit (Obj.error "boom")) (.lit (Obj.integer 1))
      [] "boom").1 rfl).1
  · exact (error_propagation (.lit (Obj.integer 1)) (.lit (Obj.error "boom"))
      [] "boom").2.2.2
      (ENode.less (.lit (Obj.integer 1)) (.lit (Obj.error "boom")))
      (.lit (Obj.error "boom")) (by simp [ENode.subs]) rfl

/-- Counterexample for C2 as stated: with an erring left operand, Eval does
not return "immediately without further computation" — the whole right
subtree is still evaluated.  On `Times(Error("boom"), Times(1, 2))` the
result is the left error, yet 5 Eval invocations occur (the root, the left
leaf, and all 3 nodes of the right subtree) instead of the 2 that an
immediate return after the first recursive call would perform. -/
theorem times_short_circuit_cex :
    ((ENode.times (.lit (Obj.error "boom"))
        (ENode.times (.lit (Obj.integer 1)) (.lit (Obj.integer 2)))).eval [] =
      Obj.error "boom") ∧
    (ENode.times (.lit (Obj.error "boom"))
        (ENode.times (.lit (Obj.integer 1)) (.lit (Obj.integer 2)))).evalCalls = 5 ∧
    ¬ (ENode.times (.lit (Obj.error "boom"))
        (ENode.times (.lit (Obj.integer 1)) (.lit (Obj.integer 2)))).evalCalls =
      1 + (ENode.lit (Obj.error "boom")).evalCalls := by
  refine ⟨rfl, rfl, by decide⟩

/-- C3: on error-free operands of different kinds, Times and Less return the
mismatched-types error built from the rendered operands, the operator symbol
and both kind names, exactly as formatted at times.go lines 29–32 and 82–85. -/
theorem mismatched_kinds (a b : ENode) (env : Env) (va vb : Obj)
    (ha : a.eval env = va) (hb : b.eval env = vb)
    (hea : isError va = false) (heb : isError vb = false)
    (hne : va.type ≠ vb.type) :
    (ENode.times a b).eval env =
      Obj.error ("invalid operation " ++ va.render ++ " * " ++ vb.render ++
        " (mismatched types " ++ va.type.str ++ " and " ++ vb.type.str ++ ")") ∧
    (ENode.less a b).eval env =
      Obj.error ("invalid operation " ++ va.render ++ " < " ++ vb.render ++
        " (mismatched types " ++ va.type.str ++ " and " ++ vb.type.str ++ ")") := by
  constructor <;> simp [ENode.eval, ha, hb, hea, heb, hne]

/-- Witness for C3 at a concrete input: `1 * true` and `1 < true`. -/
theorem mismatched_kinds_wit :
    (ENode.times (.lit (Obj.integer 1)) (.lit (Obj.boolean true))).eval [] =
      Obj.error "invalid operation 1 * true (mismatched types int and bool)" ∧
    (ENode.less (.lit (Obj.integer 1)) (.lit (Obj.boolean true))).eval [] =
      Obj.error "invalid operation 1 < true (mismatched types int and bool)" := by
  have h := mismatched_kinds (.lit (Obj.integer 1)) (.lit (Obj.boolean true)) []
    (Obj.integer 1) (Obj.boolean true) rfl rfl rfl rfl (by decide)
  constructor
  · have h1 := h.1
    simpa [Obj.render, Obj.type, ObjType.str] using h1
  · have h2 := h.2
    simpa [Obj.render, Obj.type, ObjType.str] using h2

/-- C4: Less.Eval on error-free operands of the same kind: two Integers or
two Floats yield the Boolean of the order comparison, any other common kind
(Strings included) yields the unsupported-operator error; and on all inputs
whatsoever the result kind is Boolean or Error. -/
theorem less_same_kind (a b : ENode) (env : Env) :
    (∀ l r, a.eval env = Obj.integer l → b.eval env = Obj.integer r →
      (ENode.less a b).eval env = ParseBool (decide (l < r))) ∧
    (∀ x y, a.eval env = Obj.float x → b.eval env = Obj.float y →
      (ENode.less a b).eval env = ParseBool (decide (x < y))) ∧
    (∀ va vb, a.eval env = va → b.eval env = vb → va.type = vb.type →
      isError va = false → va.type ≠ ObjType.INT → va.type ≠ ObjType.FLOAT →
      (ENode.less a b).eval env =
        Obj.error ("unsupported operator \x27<\x27 for type " ++ va.type.str)) ∧
    (((ENode.less a b).eval env).type = ObjType.BOOL ∨
      ((ENode.less a b).eval env).type = ObjType.ERROR) := by
  refine ⟨?_, ?_, ?_, ?_⟩
  · intro l r ha hb
    simp [ENode.eval, ha, hb, isError, Obj.type]
  · intro x y ha hb
    simp [ENode.eval, ha, hb, isError, Obj.type]
  · intro va vb ha hb hty hne hint hfloat
    subst ha; subst hb
    cases hva : a.eval env <;> cases hvb : b.eval env <;>
      simp_all [ENode.eval, isError, Obj.type, ObjType.str]
  · cases hva : a.eval env <;> cases hvb : b.eval env <;>
      simp [ENode.eval, hva, hvb, isError, Obj.type, ParseBool]

/-- Witness for C4 at concrete inputs: `1 < 2` on Integers is Boolean true,
and `<` on two Strings is the unsupported-operator error. -/
theorem less_same_kind_wit :
    (ENode.less (.lit (Obj.integer 1)) (.lit (Obj.integer 2))).eval [] =
      Obj.boolean true ∧
    (ENode.less (.lit (Obj.string "a")) (.lit (Obj.string "b"))).eval [] =
      Obj.error "unsupported operator \x27<\x27 for type string" := by
  constructor
  · have h := (less_same_kind (.lit (Obj.integer 1)) (.lit (Obj.integer 2)) []).1
      1 2 rfl rfl
    simpa [ParseBool] using h
  · have h := (less_same_kind (.lit (Obj.string "a")) (.lit (Obj.string "b")) []).2.2.1
      (Obj.string "a") (Obj.string "b") rfl rfl rfl rfl (by decide) (by decide)
    simpa [Obj.type, ObjType.str] using h

/-- C9: the String methods of Times and Less produce the parenthesized form
with a single space around the operator, applied to the children's own
rendered forms; e.g. `Times(lit 1, lit 2)` renders as "(1 * 2)". -/
theorem render_parenthesized :
    (∀ a b : ENode,
      (ENode.times a b).render = "(" ++ a.render ++ " * " ++ b.render ++ ")" ∧
      (ENode.less a b).render = "(" ++ a.render ++ " < " ++ b.render ++ ")") ∧
    (ENode.times (.lit (Obj.integer 1)) (.lit (Obj.integer 2))).render =
      "(1 * 2)" ∧
    (ENode.less (ENode.times (.lit (Obj.integer 1)) (.lit (Obj.integer 2)))
      (.lit (Obj.integer 3))).render = "((1 * 2) < 3)" := by
  exact ⟨fun a b => ⟨rfl, rfl⟩, rfl, rfl⟩

/-- C6: the POWER token kind has a precedence entry (class PRODUCT) but no
registered infix parser (its registration is commented out, parser.go line
96); parsing `a ** b` builds no power node — the result is the two bare
identifier statements — and records the parse error
"no parse prefix function for '*' found". -/
theorem power_token_parse_error :
    precedences ItemType.POWER = some PRODUCT ∧
    infTable ItemType.POWER = none ∧
    Parse 50 [⟨.IDENT, "a"⟩, ⟨.POWER, "**"⟩, ⟨.IDENT, "b"⟩] =
      (.block [.identifier "a", .identifier "b"],
        ["no parse prefix function for \x27*\x27 found"]) :=
  ⟨rfl, rfl, rfl⟩

/-- C7: Parse always returns a Block root; an empty token stream and a
stream whose first token is EOF both give the empty Block with no errors;
each iteration of the main loop parses a return statement when the current
token is the return keyword and an expression otherwise; and the loop
accumulator appends statements in order. -/
theorem parse_returns_block :
    (∀ fuel toks, ∃ stmts, (Parse fuel toks).1 = PNode.block stmts) ∧
    (∀ fuel, Parse fuel [] = (PNode.block [], [])) ∧
    (∀ fuel rest, Parse fuel (eofItem :: rest) = (PNode.block [], [])) ∧
    (∀ f p, parseStatement (f + 1) p =
      if p.cur.Is .RETURN then
        (some (parseReturn f p).1, (parseReturn f p).2)
      else parseExpr f p LOWEST) ∧
    (∀ f p acc, parseLoopAcc f p acc =
      (acc ++ (parseLoopAcc f p []).1, (parseLoopAcc f p []).2)) := by
  refine ⟨?_, ?_, ?_, ?_, ?_⟩
  · intro fuel toks
    exact ⟨(parseLoopAcc fuel (newParser toks) []).1, rfl⟩
  · intro fuel
    cases fuel <;> rfl
  · intro fuel rest
    cases fuel <;> rfl
  · intro f p
    rfl
  · intro f
    induction f with
    | zero => intro p acc; simp [parseLoopAcc]
    | succ f ih =>
      intro p acc
      by_cases h : p.cur.Is .EOF = false
      · rw [parseLoopAcc, parseLoopAcc]
        rw [if_pos h, if_pos h]
        cases hs : (parseStatement f p).1 with
        | none =>
          simp only [hs]
          exact ih _ _
        | some n =>
          simp only [hs]
          rw [ih ((parseStatement f p).2.next) (acc ++ [n]),
              ih ((parseStatement f p).2.next) ([] ++ [n])]
          simp
      · rw [parseLoopAcc, parseLoopAcc]
        rw [if_neg h, if_neg h]
        simp

/-- C10: a token kind absent from the precedence table gets precedence
LOWEST, the infix loop's strict-inequality guard can then never hold, and
the loop returns its left operand with the parser state untouched — so
expression parsing stops right before any unregistered token kind. -/
theorem unregistered_token_lowest_prec :
    (∀ p, precedences p.peek.typ = none → peekPrec p = LOWEST) ∧
    (∀ p prec, precedences p.peek.typ = none → ¬ (prec < peekPrec p)) ∧
    (∀ fuel p prec left, precedences p.peek.typ = none →
      infLoop fuel p prec left = (left, p)) := by
  refine ⟨?_, ?_, ?_⟩
  · intro p h; simp [peekPrec, h]
  · intro p prec h; simp [peekPrec, h, LOWEST]
  · intro fuel p prec left h
    cases fuel with
    | zero => rfl
    | succ f =>
      rw [infLoop]
      rw [if_neg]
      intro hc
      have h2 := hc.2
      simp [peekPrec, h, LOWEST] at h2

/-- Witness for C10 at a concrete state: with an RPAREN peek token (kind
unregistered in the precedence table) the loop fires no infix parser and
leaves the state unchanged, and the lookup yields LOWEST. -/
theorem unregistered_token_lowest_prec_wit :
    peekPrec rparenState = LOWEST ∧
    infLoop 50 rparenState LOWEST (some (.identifier "a")) =
      (some (.identifier "a"), rparenState) := by
  constructor
  · exact unregistered_token_lowest_prec.1 rparenState rfl
  · exact unregistered_token_lowest_prec.2.2 50 rparenState
      LOWEST (some (.identifier "a")) rfl

/-- C5 (amended): every token kind registered with a binary-operator infix
parser (the seventeen arithmetic, comparison, logical and assignment
operators — not the call and index tokens, whose infix parsers are not
precedence-driven) parses left-associatively: `a t b t c` yields the tree
`((a t b) t c)` with no errors, because each such parser parses its right
operand with the current token's own precedence and the infix loop requires
the minimum precedence to be strictly below the peek's. -/
theorem binary_ops_left_assoc (t : ItemType) (b : BinOp)
    (h : infTable t = some (InfKind.op b)) :
    Parse 50 [⟨.IDENT, "a"⟩, ⟨t, ""⟩, ⟨.IDENT, "b"⟩, ⟨t, ""⟩, ⟨.IDENT, "c"⟩] =
      (.block [mkBin b (some (mkBin b (some (.identifier "a"))
          (some (.identifier "b")))) (some (.identifier "c"))], []) := by
  cases t <;> simp [infTable] at h <;> subst h <;> rfl

/-- Witness for C5 (amended) at the PLUS token: `a + b + c` parses as
`((a + b) + c)`. -/
theorem binary_ops_left_assoc_wit :
    Parse 50 [⟨.IDENT, "a"⟩, ⟨.PLUS, ""⟩, ⟨.IDENT, "b"⟩, ⟨.PLUS, ""⟩,
        ⟨.IDENT, "c"⟩] =
      (.block [.plus (some (.plus (some (.identifier "a"))
          (some (.identifier "b")))) (some (.identifier "c"))], []) :=
  binary_ops_left_assoc .PLUS .add rfl

/-- Counterexample for C5 as stated: LPAREN has a registered infix parser
(parseCall) and a precedence entry (class CALL), yet parsing `a ( b ( c`
does not yield the left-associative double application — it yields a single
Call node with an empty argument list and records two parse errors. -/
theorem call_token_left_assoc_cex :
    infTable ItemType.LPAREN = some InfKind.callK ∧
    precedences ItemType.LPAREN = some CALL ∧
    (Parse 50 [⟨.IDENT, "a"⟩, ⟨.LPAREN, "("⟩, ⟨.IDENT, "b"⟩, ⟨.LPAREN, "("⟩,
      ⟨.IDENT, "c"⟩]).2 ≠ [] ∧
    (Parse 50 [⟨.IDENT, "a"⟩, ⟨.LPAREN, "("⟩, ⟨.IDENT, "b"⟩, ⟨.LPAREN, "("⟩,
        ⟨.IDENT, "c"⟩]).1 ≠
      PNode.block [.call (some (.call (some (.identifier "a"))
        [some (.identifier "b")])) [some (.identifier "c")]] := by
  have h2 : (Parse 50 [⟨.IDENT, "a"⟩, ⟨.LPAREN, "("⟩, ⟨.IDENT, "b"⟩,
      ⟨.LPAREN, "("⟩, ⟨.IDENT, "c"⟩]).2 =
      ["expected next item to be ), got EOF instead",
       "expected next item to be ), got EOF instead"] := rfl
  have h1 : (Parse 50 [⟨.IDENT, "a"⟩, ⟨.LPAREN, "("⟩, ⟨.IDENT, "b"⟩,
      ⟨.LPAREN, "("⟩, ⟨.IDENT, "c"⟩]).1 =
      PNode.block [.call (some (.identifier "a")) []] := rfl
  refine ⟨rfl, rfl, ?_, ?_⟩
  · rw [h2]; simp
  · rw [h1]; simp

theorem addErr_errs (p : Parser) (m : String) : (addErr p m).errs = p.errs ++ [m] := rfl

theorem addErr_ne (p : Parser) (m : String) : (addErr p m).errs ≠ p.errs := by
  rw [addErr_errs]
  intro h
  have hl := congrArg List.length h
  simp at hl

theorem next_errs (p : Parser) : (p.next).errs = p.errs := rfl

theorem errsLe_refl (p : Parser) : errsLe p p := ⟨[], by simp⟩

theorem errsLe_trans {p q r : Parser} (h1 : errsLe p q) (h2 : errsLe q r) :
    errsLe p r := by
  obtain ⟨d1, hd1⟩ := h1
  obtain ⟨d2, hd2⟩ := h2
  exact ⟨d1 ++ d2, by rw [hd2, hd1, List.append_assoc]⟩

theorem errsLe_addErr (p : Parser) (m : String) : errsLe p (addErr p m) := ⟨[m], rfl⟩

theorem errsLe_next (p : Parser) : errsLe p p.next := ⟨[], by simp [next_errs]⟩

theorem errsLe_of_errs_eq {p q : Parser} (h : q.errs = p.errs) : errsLe p q :=
  ⟨[], by simp [h]⟩

theorem chain_eq {p q r : Parser} (h1 : errsLe p q) (h2 : errsLe q r)
    (h : r.errs = p.errs) : q.errs = p.errs ∧ r.errs = q.errs := by
  obtain ⟨d1, hd1⟩ := h1
  obtain ⟨d2, hd2⟩ := h2
  rw [hd2, hd1] at h
  rw [List.append_assoc] at h
  conv at h => rhs; rw [← List.append_nil p.errs]
  have hnil := List.append_cancel_left h
  rw [List.append_eq_nil] at hnil
  obtain ⟨h1n, h2n⟩ := hnil
  subst h1n; subst h2n
  constructor <;> simp [hd1, hd2]

theorem semiSkip_errs (q : Parser) :
    (if q.peek.Is .SEMICOLON then q.next else q).errs = q.errs := by
  split <;> rfl

theorem expectPeek_mono (p : Parser) (t : ItemType) :
    errsLe p (expectPeek p t).2 := by
  unfold expectPeek
  split
  · exact errsLe_next p
  · exact errsLe_addErr p _

theorem expectPeek_eq {p : Parser} {t : ItemType}
    (h : (expectPeek p t).2.errs = p.errs) :
    (expectPeek p t).1 = true ∧ (expectPeek p t).2 = p.next := by
  by_cases hp : p.peek.Is t = true
  · simp [expectPeek, hp]
  · simp only [expectPeek, hp, if_neg, Bool.false_eq_true, if_false, peekError] at h
    exact absurd h (addErr_ne p _)

theorem okN_oFull {o : Option PNode} : okN o ↔ oFull o = true := by
  cases o with
  | none => simp [okN, oFull]
  | some n => simp [okN, oFull]

theorem lFull_append (xs ys : List PNode) :
    lFull (xs ++ ys) = (lFull xs && lFull ys) := by
  induction xs with
  | nil => simp [lFull]
  | cons x xs ih => simp [lFull, ih, Bool.and_assoc]

theorem loFull_append (xs ys : List (Option PNode)) :
    loFull (xs ++ ys) = (loFull xs && loFull ys) := by
  induction xs with
  | nil => simp [loFull]
  | cons x xs ih => simp [loFull, ih, Bool.and_assoc]

theorem mkBin_full (b : BinOp) (l r : Option PNode) :
    (mkBin b l r).full = (oFull l && oFull r) := by
  cases b <;> rfl

theorem parseInteger_inv (p : Parser) :
    errsLe p (parseInteger p).2 ∧
    ((parseInteger p).2.errs = p.errs → okN (parseInteger p).1) := by
  unfold parseInteger
  cases h : parseIntLit p.cur.val with
  | some i =>
    refine ⟨errsLe_refl p, fun _ => ⟨.integer i, rfl, rfl⟩⟩
  | none =>
    exact ⟨errsLe_addErr p _, fun hc => absurd hc (addErr_ne p _)⟩

theorem parseFloat_inv (p : Parser) :
    errsLe p (parseFloat p).2 ∧
    ((parseFloat p).2.errs = p.errs → okN (parseFloat p).1) := by
  unfold parseFloat
  cases h : parseFloatLit p.cur.val with
  | some q =>
    refine ⟨errsLe_refl p, fun _ => ⟨.float q, rfl, rfl⟩⟩
  | none =>
    exact ⟨errsLe_addErr p _, fun hc => absurd hc (addErr_ne p _)⟩

theorem errsLe_semiSkip (q : Parser) :
    errsLe q (if q.peek.Is .SEMICOLON then q.next else q) :=
  errsLe_of_errs_eq (semiSkip_errs q)

theorem okN_some {n : PNode} (h : n.full = true) : okN (some n) := ⟨n, rfl, h⟩

theorem parserInv (f : Nat) :
    (∀ p prec, errsLe p (parseExpr f p prec).2 ∧
      ((parseExpr f p prec).2.errs = p.errs → okN (parseExpr f p prec).1)) ∧
    (∀ p prec left, errsLe p (infLoop f p prec left).2 ∧
      ((infLoop f p prec left).2.errs = p.errs → okN left →
        okN (infLoop f p prec left).1)) ∧
    (∀ p k, errsLe p (runPre f k p).2 ∧
      ((runPre f k p).2.errs = p.errs → okN (runPre f k p).1)) ∧
    (∀ p k left, errsLe p (runInf f k p left).2 ∧
      ((runInf f k p left).2.errs = p.errs → okN left →
        okN (runInf f k p left).1)) ∧
    (∀ p b left, errsLe p (parseInfOp f b p left).2 ∧
      ((parseInfOp f b p left).2.errs = p.errs → okN left →
        okN (parseInfOp f b p left).1)) ∧
    (∀ p, errsLe p (parseGroupedExpr f p).2 ∧
      ((parseGroupedExpr f p).2.errs = p.errs → okN (parseGroupedExpr f p).1)) ∧
    (∀ p, errsLe p (parseIfExpr f p).2 ∧
      ((parseIfExpr f p).2.errs = p.errs → okN (parseIfExpr f p).1)) ∧
    (∀ p, errsLe p (parseBlock f p).2 ∧
      ((parseBlock f p).2.errs = p.errs → (parseBlock f p).1.full = true)) ∧
    (∀ p acc, errsLe p (blockLoop f p acc).2 ∧
      ((blockLoop f p acc).2.errs = p.errs → lFull acc = true →
        lFull (blockLoop f p acc).1 = true)) ∧
    (∀ p, errsLe p (parseFunction f p).2 ∧
      ((parseFunction f p).2.errs = p.errs → okN (parseFunction f p).1)) ∧
    (∀ p, errsLe p (parseFunctionParams f p).2) ∧
    (∀ p acc, errsLe p (paramsLoop f p acc).2) ∧
    (∀ p, errsLe p (parseListLit f p).2 ∧
      ((parseListLit f p).2.errs = p.errs → okN (parseListLit f p).1)) ∧
    (∀ p left, errsLe p (parseCall f p left).2 ∧
      ((parseCall f p left).2.errs = p.errs → okN left →
        okN (parseCall f p left).1)) ∧
    (∀ p left, errsLe p (parseIndex f p left).2 ∧
      ((parseIndex f p left).2.errs = p.errs → okN left →
        okN (parseIndex f p left).1)) ∧
    (∀ p endT, errsLe p (parseNodeList f p endT).2 ∧
      ((parseNodeList f p endT).2.errs = p.errs →
        loFull (parseNodeList f p endT).1 = true)) ∧
    (∀ p endT acc, errsLe p (nodeListLoop f p endT acc).2 ∧
      ((nodeListLoop f p endT acc).2.errs = p.errs → loFull acc = true →
        loFull (nodeListLoop f p endT acc).1 = true)) ∧
    (∀ p, errsLe p (parseReturn f p).2 ∧
      ((parseReturn f p).2.errs = p.errs → (parseReturn f p).1.full = true)) ∧
    (∀ p, errsLe p (parseStatement f p).2 ∧
      ((parseStatement f p).2.errs = p.errs → okN (parseStatement f p).1)) ∧
    (∀ p acc, errsLe p (parseLoopAcc f p acc).2 ∧
      ((parseLoopAcc f p acc).2.errs = p.errs → lFull acc = true →
        lFull (parseLoopAcc f p acc).1 = true)) := by
  induction f with
  | zero =>
    refine ⟨?_, ?_, ?_, ?_, ?_, ?_, ?_, ?_, ?_, ?_, ?_, ?_, ?_, ?_, ?_, ?_, ?_,
      ?_, ?_, ?_⟩
    · exact fun p prec => ⟨errsLe_addErr p _, fun hc => absurd hc (addErr_ne p _)⟩
    · exact fun p prec left => ⟨errsLe_refl p, fun _ h => h⟩
    · exact fun p k => ⟨errsLe_addErr p _, fun hc => absurd hc (addErr_ne p _)⟩
    · exact fun p k left => ⟨errsLe_addErr p _, fun hc _ => absurd hc (addErr_ne p _)⟩
    · exact fun p b left => ⟨errsLe_addErr p _, fun hc _ => absurd hc (addErr_ne p _)⟩
    · exact fun p => ⟨errsLe_addErr p _, fun hc => absurd hc (addErr_ne p _)⟩
    · exact fun p => ⟨errsLe_addErr p _, fun hc => absurd hc (addErr_ne p _)⟩
    · exact fun p => ⟨errsLe_addErr p _, fun hc => absurd hc (addErr_ne p _)⟩
    · exact fun p acc => ⟨errsLe_refl p, fun _ h => h⟩
    · exact fun p => ⟨errsLe_addErr p _, fun hc => absurd hc (addErr_ne p _)⟩
    · exact fun p => errsLe_addErr p _
    · exact fun p acc => errsLe_refl p
    · exact fun p => ⟨errsLe_addErr p _, fun hc => absurd hc (addErr_ne p _)⟩
    · exact fun p left => ⟨errsLe_addErr p _, fun hc _ => absurd hc (addErr_ne p _)⟩
    · exact fun p left => ⟨errsLe_addErr p _, fun hc _ => absurd hc (addErr_ne p _)⟩
    · exact fun p endT => ⟨errsLe_addErr p _, fun hc => absurd hc (addErr_ne p _)⟩
    · exact fun p endT acc => ⟨errsLe_refl p, fun _ h => h⟩
    · exact fun p => ⟨errsLe_addErr p _, fun hc => absurd hc (addErr_ne p _)⟩
    · exact fun p => ⟨errsLe_addErr p _, fun hc => absurd hc (addErr_ne p _)⟩
    · exact fun p acc => ⟨errsLe_refl p, fun _ h => h⟩
  | succ f ih =>
    obtain ⟨ihExpr, ihInf, ihPre, ihRunInf, ihInfOp, ihGroup, ihIf, ihBlock,
      ihBlockLoop, ihFunc, ihParams, ihParamsLoop, ihList, ihCall, ihIndex,
      ihNodeList, ihNLLoop, ihReturn, ihStmt, ihLoop⟩ := ih
    refine ⟨?_, ?_, ?_, ?_, ?_, ?_, ?_, ?_, ?_, ?_, ?_, ?_, ?_, ?_, ?_, ?_, ?_,
      ?_, ?_, ?_⟩
    -- parseExpr
    · intro p prec
      cases hk : preTable p.cur.typ with
      | none =>
        simp only [parseExpr, hk]
        exact ⟨errsLe_addErr p _, fun hc => absurd hc (addErr_ne p _)⟩
      | some k =>
        obtain ⟨m1, g1⟩ := ihPre p k
        obtain ⟨m2, g2⟩ := ihInf (runPre f k p).2 prec (runPre f k p).1
        simp only [parseExpr, hk]
        constructor
        · exact errsLe_trans (errsLe_trans m1 m2)
            (errsLe_semiSkip (infLoop f (runPre f k p).2 prec (runPre f k p).1).2)
        · intro hq
          have hq2 :=
            (semiSkip_errs (infLoop f (runPre f k p).2 prec (runPre f k p).1).2).symm.trans hq
          obtain ⟨e1, e2⟩ := chain_eq m1 m2 hq2
          exact g2 e2 (g1 e1)
    -- infLoop
    · intro p prec left
      by_cases hc : (p.peek.Is .SEMICOLON = false ∧ prec < peekPrec p)
      · cases hk : infTable p.peek.typ with
        | none =>
          simp only [infLoop, if_pos hc, hk]
          exact ⟨errsLe_refl p, fun _ h => h⟩
        | some k =>
          obtain ⟨m1, g1⟩ := ihRunInf p.next k left
          obtain ⟨m2, g2⟩ :=
            ihInf (runInf f k p.next left).2 prec (runInf f k p.next left).1
          simp only [infLoop, if_pos hc, hk]
          constructor
          · exact errsLe_trans (errsLe_trans (errsLe_next p) m1) m2
          · intro hq hl
            obtain ⟨e1, e2⟩ := chain_eq m1 m2 hq
            exact g2 e2 (g1 e1 hl)
      · simp only [infLoop, if_neg hc]
        exact ⟨errsLe_refl p, fun _ h => h⟩
    -- runPre
    · intro p k
      cases k with
      | identK =>
        simp only [runPre]
        exact ⟨errsLe_refl p, fun _ => okN_some rfl⟩
      | intK =>
        simp only [runPre]
        exact parseInteger_inv p
      | floatK =>
        simp only [runPre]
        exact parseFloat_inv p
      | stringK =>
        simp only [runPre]
        exact ⟨errsLe_refl p, fun _ => okN_some rfl⟩
      | boolK =>
        simp only [runPre]
        exact ⟨errsLe_refl p, fun _ => okN_some rfl⟩
      | minusK =>
        obtain ⟨m, g⟩ := ihExpr p.next UNARY
        simp only [runPre]
        refine ⟨errsLe_trans (errsLe_next p) m, fun hq => ?_⟩
        obtain ⟨n, hn, hf⟩ := g hq
        refine okN_some ?_
        simp only [PNode.full, hn, oFull, hf]
      | bangK =>
        obtain ⟨m, g⟩ := ihExpr p.next UNARY
        simp only [runPre]
        refine ⟨errsLe_trans (errsLe_next p) m, fun hq => ?_⟩
        obtain ⟨n, hn, hf⟩ := g hq
        refine okN_some ?_
        simp only [PNode.full, hn, oFull, hf]
      | groupK =>
        simp only [runPre]
        exact ihGroup p
      | ifK =>
        simp only [runPre]
        exact ihIf p
      | fnK =>
        simp only [runPre]
        exact ihFunc p
      | listK =>
        simp only [runPre]
        exact ihList p
    -- runInf
    · intro p k left
      cases k with
      | op b =>
        simp only [runInf]
        exact ihInfOp p b left
      | callK =>
        simp only [runInf]
        exact ihCall p left
      | indexK =>
        simp only [runInf]
        exact ihIndex p left
    -- parseInfOp
    · intro p b left
      obtain ⟨m, g⟩ := ihExpr p.next (curPrec p)
      simp only [parseInfOp]
      refine ⟨errsLe_trans (errsLe_next p) m, fun hq hl => ?_⟩
      obtain ⟨n, hn, hf⟩ := g hq
      refine okN_some ?_
      rw [mkBin_full]
      have h1 := okN_oFull.mp hl
      simp only [hn, oFull, hf, h1, Bool.and_self]
    -- parseGroupedExpr
    · intro p
      obtain ⟨m, g⟩ := ihExpr p.next LOWEST
      have mE := expectPeek_mono (parseExpr f p.next LOWEST).2 .RPAREN
      simp only [parseGroupedExpr]
      split
      case isTrue he =>
        refine ⟨errsLe_trans (errsLe_trans (errsLe_next p) m) mE, fun hq => ?_⟩
        obtain ⟨eA, eB⟩ := chain_eq (errsLe_trans (errsLe_next p) m) mE hq
        exact g eA
      case isFalse he =>
        refine ⟨errsLe_trans (errsLe_trans (errsLe_next p) m) mE, fun hq => ?_⟩
        obtain ⟨eA, eB⟩ := chain_eq (errsLe_trans (errsLe_next p) m) mE hq
        exact absurd (expectPeek_eq eB).1 he
    -- parseIfExpr
    · intro p
      obtain ⟨mc, gc⟩ := ihExpr p.next LOWEST
      have mE1 := expectPeek_mono (parseExpr f p.next LOWEST).2 .LBRACE
      obtain ⟨mb, gb⟩ :=
        ihBlock (expectPeek (parseExpr f p.next LOWEST).2 .LBRACE).2
      have mPre : errsLe p (expectPeek (parseExpr f p.next LOWEST).2 .LBRACE).2 :=
        errsLe_trans (errsLe_trans (errsLe_next p) mc) mE1
      simp only [parseIfExpr]
      split
      case isFalse he1 =>
        refine ⟨mPre, fun hq => ?_⟩
        obtain ⟨eA, eB⟩ := chain_eq (errsLe_trans (errsLe_next p) mc) mE1 hq
        exact absurd (expectPeek_eq eB).1 he1
      case isTrue he1 =>
        split
        case isFalse hElse =>
          refine ⟨errsLe_trans mPre mb, fun hq => ?_⟩
          obtain ⟨eA, eB⟩ := chain_eq mPre mb hq
          obtain ⟨eC, eD⟩ := chain_eq (errsLe_trans (errsLe_next p) mc) mE1 eA
          have h1 := okN_oFull.mp (gc eC)
          have h2 := gb eB
          refine okN_some ?_
          simp [PNode.full, altFull, h1, h2]
        case isTrue hElse =>
          split
          case isTrue hIf =>
            obtain ⟨ma, ga⟩ := ihIf
              (parseBlock f (expectPeek (parseExpr f p.next LOWEST).2 .LBRACE).2).2.next.next
            have mStep : errsLe
                (parseBlock f (expectPeek (parseExpr f p.next LOWEST).2 .LBRACE).2).2
                (parseBlock f (expectPeek (parseExpr f p.next LOWEST).2 .LBRACE).2).2.next.next :=
              errsLe_of_errs_eq rfl
            refine ⟨errsLe_trans (errsLe_trans mPre mb) (errsLe_trans mStep ma),
              fun hq => ?_⟩
            obtain ⟨eA, eB⟩ :=
              chain_eq (errsLe_trans mPre mb) (errsLe_trans mStep ma) hq
            obtain ⟨eC, eD⟩ := chain_eq mPre mb eA
            obtain ⟨eE, eF⟩ := chain_eq (errsLe_trans (errsLe_next p) mc) mE1 eC
            have h1 := okN_oFull.mp (gc eE)
            have h2 := gb eD
            obtain ⟨na, hna, hfa⟩ := ga eB
            refine okN_some ?_
            simp [PNode.full, altFull, h1, h2, hna, hfa]
          case isFalse hIf =>
            have mE2 := expectPeek_mono
              (parseBlock f (expectPeek (parseExpr f p.next LOWEST).2 .LBRACE).2).2.next .LBRACE
            have mStep : errsLe
                (parseBlock f (expectPeek (parseExpr f p.next LOWEST).2 .LBRACE).2).2
                (parseBlock f (expectPeek (parseExpr f p.next LOWEST).2 .LBRACE).2).2.next :=
              errsLe_of_errs_eq rfl
            split
            case isTrue he2 =>
              obtain ⟨mb2, gb2⟩ := ihBlock
                (expectPeek (parseBlock f (expectPeek (parseExpr f p.next LOWEST).2 .LBRACE).2).2.next .LBRACE).2
              refine ⟨errsLe_trans (errsLe_trans mPre mb)
                (errsLe_trans (errsLe_trans mStep mE2) mb2), fun hq => ?_⟩
              obtain ⟨eA, eB⟩ := chain_eq (errsLe_trans mPre mb)
                (errsLe_trans (errsLe_trans mStep mE2) mb2) hq
              obtain ⟨eC, eD⟩ := chain_eq (errsLe_trans mStep mE2) mb2 eB
              obtain ⟨eE, eF⟩ := chain_eq mPre mb eA
              obtain ⟨eG, eH⟩ := chain_eq (errsLe_trans (errsLe_next p) mc) mE1 eE
              have h1 := okN_oFull.mp (gc eG)
              have h2 := gb eF
              have h3 := gb2 eD
              refine okN_some ?_
              simp [PNode.full, altFull, h1, h2, h3]
            case isFalse he2 =>
              refine ⟨errsLe_trans (errsLe_trans mPre mb)
                (errsLe_trans mStep mE2), fun hq => ?_⟩
              obtain ⟨eA, eB⟩ := chain_eq (errsLe_trans mPre mb)
                (errsLe_trans mStep mE2) hq
              obtain ⟨eC, eD⟩ := chain_eq mStep mE2 eB
              exact absurd (expectPeek_eq eD).1 he2
    -- parseBlock
    · intro p
      obtain ⟨m, g⟩ := ihBlockLoop p.next []
      simp only [parseBlock]
      refine ⟨errsLe_trans (errsLe_next p) m, fun hq => ?_⟩
      simp only [PNode.full]
      exact g hq rfl
    -- blockLoop
    · intro p acc
      by_cases hc : (p.cur.Is .RBRACE = false ∧ p.cur.Is .EOF = false)
      · obtain ⟨mS, gS⟩ := ihStmt p
        cases hs : (parseStatement f p).1 with
        | none =>
          obtain ⟨mL, gL⟩ := ihBlockLoop (parseStatement f p).2.next acc
          simp only [blockLoop, if_pos hc, hs]
          refine ⟨errsLe_trans (errsLe_trans mS (errsLe_next _)) mL,
            fun hq hacc => ?_⟩
          obtain ⟨e1, e2⟩ := chain_eq (errsLe_trans mS (errsLe_next _)) mL hq
          obtain ⟨n, hn, _⟩ := gS e1
          rw [hs] at hn
          cases hn
        | some n =>
          obtain ⟨mL, gL⟩ := ihBlockLoop (parseStatement f p).2.next (acc ++ [n])
          simp only [blockLoop, if_pos hc, hs]
          refine ⟨errsLe_trans (errsLe_trans mS (errsLe_next _)) mL,
            fun hq hacc => ?_⟩
          obtain ⟨e1, e2⟩ := chain_eq (errsLe_trans mS (errsLe_next _)) mL hq
          obtain ⟨n2, hn2, hf2⟩ := gS e1
          rw [hs] at hn2
          injection hn2 with hnn
          apply gL e2
          rw [lFull_append]
          subst hnn
          simp [lFull, hacc, hf2]
      · simp only [blockLoop, if_neg hc]
        exact ⟨errsLe_refl p, fun _ h => h⟩
    -- parseFunction
    · intro p
      have mE1 := expectPeek_mono p .LPAREN
      have mP := ihParams (expectPeek p .LPAREN).2
      have mE2 := expectPeek_mono
        (parseFunctionParams f (expectPeek p .LPAREN).2).2 .LBRACE
      obtain ⟨mB, gB⟩ := ihBlock
        (expectPeek (parseFunctionParams f (expectPeek p .LPAREN).2).2 .LBRACE).2
      simp only [parseFunction]
      split
      case isTrue he1 =>
        split
        case isTrue he2 =>
          refine ⟨errsLe_trans (errsLe_trans (errsLe_trans mE1 mP) mE2) mB,
            fun hq => ?_⟩
          obtain ⟨eA, eB⟩ :=
            chain_eq (errsLe_trans (errsLe_trans mE1 mP) mE2) mB hq
          refine okN_some ?_
          simp only [PNode.full]
          exact gB eB
        case isFalse he2 =>
          refine ⟨errsLe_trans (errsLe_trans mE1 mP) mE2, fun hq => ?_⟩
          obtain ⟨eA, eB⟩ := chain_eq (errsLe_trans mE1 mP) mE2 hq
          exact absurd (expectPeek_eq eB).1 he2
      case isFalse he1 =>
        refine ⟨mE1, fun hq => ?_⟩
        exact absurd (expectPeek_eq hq).1 he1
    -- parseFunctionParams
    · intro p
      simp only [parseFunctionParams]
      split
      case isTrue h => exact errsLe_next p
      case isFalse h =>
        have mL := ihParamsLoop p.next [p.next.cur.val]
        have mE := expectPeek_mono
          (paramsLoop f p.next [p.next.cur.val]).2 .RPAREN
        split
        case isTrue h2 => exact errsLe_trans (errsLe_trans (errsLe_next p) mL) mE
        case isFalse h2 => exact errsLe_trans (errsLe_trans (errsLe_next p) mL) mE
    -- paramsLoop
    · intro p acc
      by_cases hc : p.peek.Is .COMMA = true
      · simp only [paramsLoop, if_pos hc]
        exact errsLe_trans (errsLe_trans (errsLe_next p) (errsLe_next p.next))
          (ihParamsLoop p.next.next (acc ++ [p.next.next.cur.val]))
      · simp only [paramsLoop, if_neg hc]
        exact errsLe_refl p
    -- parseListLit
    · intro p
      obtain ⟨m, g⟩ := ihNodeList p .RBRACKET
      simp only [parseListLit]
      refine ⟨m, fun hq => ?_⟩
      refine okN_some ?_
      simp only [PNode.full]
      exact g hq
    -- parseCall
    · intro p left
      obtain ⟨m, g⟩ := ihNodeList p .RPAREN
      simp only [parseCall]
      refine ⟨m, fun hq hl => ?_⟩
      refine okN_some ?_
      have h1 := okN_oFull.mp hl
      have h2 := g hq
      simp [PNode.full, h1, h2]
    -- parseIndex
    · intro p left
      obtain ⟨m, g⟩ := ihExpr p.next LOWEST
      have mE := expectPeek_mono (parseExpr f p.next LOWEST).2 .RBRACKET
      simp only [parseIndex]
      split
      case isTrue he =>
        refine ⟨errsLe_trans (errsLe_trans (errsLe_next p) m) mE,
          fun hq hl => ?_⟩
        obtain ⟨eA, eB⟩ := chain_eq (errsLe_trans (errsLe_next p) m) mE hq
        obtain ⟨n, hn, hf⟩ := g eA
        refine okN_some ?_
        have h1 := okN_oFull.mp hl
        simp [PNode.full, h1, hn, oFull, hf]
      case isFalse he =>
        refine ⟨errsLe_trans (errsLe_trans (errsLe_next p) m) mE,
          fun hq hl => ?_⟩
        obtain ⟨eA, eB⟩ := chain_eq (errsLe_trans (errsLe_next p) m) mE hq
        exact absurd (expectPeek_eq eB).1 he
    -- parseNodeList
    · intro p endT
      simp only [parseNodeList]
      split
      case isTrue h =>
        exact ⟨errsLe_next p, fun _ => rfl⟩
      case isFalse h =>
        obtain ⟨m0, g0⟩ := ihExpr p.next LOWEST
        obtain ⟨mL, gL⟩ := ihNLLoop (parseExpr f p.next LOWEST).2 endT
          [(parseExpr f p.next LOWEST).1]
        have mE := expectPeek_mono
          (nodeListLoop f (parseExpr f p.next LOWEST).2 endT
            [(parseExpr f p.next LOWEST).1]).2 endT
        split
        case isTrue h2 =>
          refine ⟨errsLe_trans
            (errsLe_trans (errsLe_trans (errsLe_next p) m0) mL) mE,
            fun hq => ?_⟩
          obtain ⟨eA, eB⟩ := chain_eq
            (errsLe_trans (errsLe_trans (errsLe_next p) m0) mL) mE hq
          obtain ⟨eC, eD⟩ := chain_eq (errsLe_trans (errsLe_next p) m0) mL eA
          apply gL eD
          have h1 := okN_oFull.mp (g0 eC)
          simp [loFull, h1]
        case isFalse h2 =>
          exact ⟨errsLe_trans
            (errsLe_trans (errsLe_trans (errsLe_next p) m0) mL) mE,
            fun _ => rfl⟩
    -- nodeListLoop
    · intro p endT acc
      by_cases hc : p.peek.Is .COMMA = true
      · obtain ⟨m0, g0⟩ := ihExpr p.next.next LOWEST
        obtain ⟨mL, gL⟩ := ihNLLoop (parseExpr f p.next.next LOWEST).2 endT
          (acc ++ [(parseExpr f p.next.next LOWEST).1])
        simp only [nodeListLoop, if_pos hc]
        refine ⟨errsLe_trans (errsLe_trans
          (errsLe_trans (errsLe_next p) (errsLe_next p.next)) m0) mL,
          fun hq hacc => ?_⟩
        obtain ⟨eA, eB⟩ := chain_eq (errsLe_trans
          (errsLe_trans (errsLe_next p) (errsLe_next p.next)) m0) mL hq
        apply gL eB
        rw [loFull_append]
        have h1 := okN_oFull.mp (g0 eA)
        simp [loFull, hacc, h1]
      · simp only [nodeListLoop, if_neg hc]
        exact ⟨errsLe_refl p, fun _ h => h⟩
    -- parseReturn
    · intro p
      obtain ⟨m, g⟩ := ihExpr p.next LOWEST
      simp only [parseReturn]
      constructor
      · exact errsLe_trans (errsLe_trans (errsLe_next p) m)
          (errsLe_semiSkip (parseExpr f p.next LOWEST).2)
      · intro hq
        have hq2 := (semiSkip_errs (parseExpr f p.next LOWEST).2).symm.trans hq
        obtain ⟨n, hn, hf⟩ := g hq2
        simp only [PNode.full, hn, oFull]
        exact hf
    -- parseStatement
    · intro p
      by_cases hc : p.cur.Is .RETURN = true
      · obtain ⟨m, g⟩ := ihReturn p
        simp only [parseStatement, if_pos hc]
        exact ⟨m, fun hq => okN_some (g hq)⟩
      · simp only [parseStatement, if_neg hc]
        exact ihExpr p LOWEST
    -- parseLoopAcc
    · intro p acc
      by_cases hc : p.cur.Is .EOF = false
      · obtain ⟨mS, gS⟩ := ihStmt p
        cases hs : (parseStatement f p).1 with
        | none =>
          obtain ⟨mL, gL⟩ := ihLoop (parseStatement f p).2.next acc
          simp only [parseLoopAcc, if_pos hc, hs]
          refine ⟨errsLe_trans (errsLe_trans mS (errsLe_next _)) mL,
            fun hq hacc => ?_⟩
          obtain ⟨e1, e2⟩ := chain_eq (errsLe_trans mS (errsLe_next _)) mL hq
          obtain ⟨n, hn, _⟩ := gS e1
          rw [hs] at hn
          cases hn
        | some n =>
          obtain ⟨mL, gL⟩ := ihLoop (parseStatement f p).2.next (acc ++ [n])
          simp only [parseLoopAcc, if_pos hc, hs]
          refine ⟨errsLe_trans (errsLe_trans mS (errsLe_next _)) mL,
            fun hq hacc => ?_⟩
          obtain ⟨e1, e2⟩ := chain_eq (errsLe_trans mS (errsLe_next _)) mL hq
          obtain ⟨n2, hn2, hf2⟩ := gS e1
          rw [hs] at hn2
          injection hn2 with hnn
          apply gL e2
          rw [lFull_append]
          subst hnn
          simp [lFull, hacc, hf2]
      · simp only [parseLoopAcc, if_neg hc]
        exact ⟨errsLe_refl p, fun _ h => h⟩

/-- C8: parsing never yields a missing child slot silently — if Parse
returns an empty error list, every required child slot of the returned AST
is populated (the contrapositive of: a nil node or nil child implies a
recorded error). -/
theorem no_silent_nil_children (fuel : Nat) (toks : List Item)
    (h : (Parse fuel toks).2 = []) :
    (Parse fuel toks).1.full = true := by
  obtain ⟨-, -, -, -, -, -, -, -, -, -, -, -, -, -, -, -, -, -, -, hLoop⟩ :=
    parserInv fuel
  obtain ⟨mL, gL⟩ := hLoop (newParser toks) []
  have h2 : (parseLoopAcc fuel (newParser toks) []).2.errs =
      (newParser toks).errs := h
  have h3 := gL h2 rfl
  simpa [Parse, parse, PNode.full] using h3

/-- Witness for C8 at a concrete program, the token stream of
`fn(x) { return x + 1 }(2)`: no parse errors, hence a fully populated tree. -/
theorem no_silent_nil_children_wit :
    (Parse 80 [⟨.FUNCTION, "fn"⟩, ⟨.LPAREN, "("⟩, ⟨.IDENT, "x"⟩,
      ⟨.RPAREN, ")"⟩, ⟨.LBRACE, ""⟩, ⟨.RETURN, "return"⟩, ⟨.IDENT, "x"⟩,
      ⟨.PLUS, "+"⟩, ⟨.INT, "1"⟩, ⟨.RBRACE, ""⟩, ⟨.LPAREN, "("⟩,
      ⟨.INT, "2"⟩, ⟨.RPAREN, ")"⟩]).1.full = true :=
  no_silent_nil_children 80 [⟨.FUNCTION, "fn"⟩, ⟨.LPAREN, "("⟩, ⟨.IDENT, "x"⟩,
    ⟨.RPAREN, ")"⟩, ⟨.LBRACE, ""⟩, ⟨.RETURN, "return"⟩, ⟨.IDENT, "x"⟩,
    ⟨.PLUS, "+"⟩, ⟨.INT, "1"⟩, ⟨.RBRACE, ""⟩, ⟨.LPAREN, "("⟩,
    ⟨.INT, "2"⟩, ⟨.RPAREN, ")"⟩] rfl
